import Mathlib

/-!
Verification of the KGML-to-graph conversion (`parse_KGML.py`).

The development shallowly embeds `KGML2Graph` and its helpers: a parsed
KGML document is a title plus lists of entry and relation elements, the
networkx undirected simple graph is a node list plus an edge list with
insert-if-absent semantics, and the Python `nodes` dict is an association
list with last-binding lookup (dict overwrite semantics). Dictionary
lookup failure (Python `KeyError` at `nodes[e1]`) is modelled as an
explicit error value, so the conversion returns `Except`.
-/

namespace KGML

/-- One `entry` element of a KGML document: attributes `id`, `type`,
`name`, and the `name` attribute of its nested `graphics` element. -/
structure Entry where
  id : String
  type : String
  name : String
  graphicsName : String
deriving DecidableEq

/-- One `relation` element: its `entry1` and `entry2` attributes. -/
structure Relation where
  entry1 : String
  entry2 : String
deriving DecidableEq

/-- A parsed KGML document: root `title` attribute, the `entry` elements
in document order, and the `relation` elements in document order. -/
structure Document where
  title : String
  entries : List Entry
  relations : List Relation
deriving DecidableEq

/-- The networkx undirected graph as used by the script: a title
attribute, the node list, and the edge list. -/
structure Graph where
  title : String
  nodes : List String
  edges : List (String × String)
deriving DecidableEq

/-- `networkx.Graph.add_node`: inserts the node if not already present. -/
def Graph.add_node (g : Graph) (v : String) : Graph :=
  if v ∈ g.nodes then g else { g with nodes := g.nodes ++ [v] }

/-- Two oriented pairs denote the same undirected edge. -/
def sameEdge (e f : String × String) : Bool :=
  (e.1 == f.1 && e.2 == f.2) || (e.1 == f.2 && e.2 == f.1)

/-- `networkx.Graph.add_edge`: ensures both endpoints are nodes, then
inserts the edge unless an equal undirected edge is already present. -/
def Graph.add_edge (g : Graph) (u v : String) : Graph :=
  let g1 := (g.add_node u).add_node v
  if g1.edges.any (fun e => sameEdge e (u, v)) then g1
  else { g1 with edges := g1.edges ++ [(u, v)] }

/-- The value stored in the `nodes` dict for an entry id:
`(name, title, type)` as on line 73 of the script. -/
abbrev Descriptor := String × String × String

/-- The `nodes` dict, as an association list in insertion order. -/
abbrev NodeTable := List (String × Descriptor)

/-- Python dict lookup with overwrite semantics: the last binding of a
key wins. `none` models a `KeyError`. -/
def dictGet (m : NodeTable) (k : String) : Option Descriptor :=
  (m.reverse.find? (fun p => p.1 == k)).map (fun p => p.2)

/-- Lines 70-71 of the script: if the graphics title ends with the
three-character marker `...` (Python `title[-3:] == '...'`), drop those
three characters (`title[:-3]`); otherwise keep the title. Python
slicing is by code point, embedded here on the character list. -/
def normalizeTitle (title : String) : String :=
  if title.data.drop (title.data.length - 3) = ['.', '.', '.'] then
    String.mk (title.data.take (title.data.length - 3))
  else title

/-- Lines 47-50 of the script: `filetype in ('organism', 'o')` selects
the organism kinds, everything else the ortholog kinds. -/
def entriesTypeFor (filetype : String) : List String :=
  if filetype = "organism" ∨ filetype = "o" then
    ["gene", "compound", "map"]
  else
    ["ortholog", "map", "compound"]

/-- Lines 59-75 of the script, one `entry` element: if the entry type is
accepted, record `(name, title, type)` in the dict (overwriting any
earlier binding of the id) and, when the type is `gene`, add the
normalized title as a graph node. -/
def processEntry (entriestype : List String) (st : NodeTable × Graph)
    (el : Entry) : NodeTable × Graph :=
  if el.type ∈ entriestype then
    let title := normalizeTitle el.graphicsName
    let table := st.1 ++ [(el.id, (el.name, title, el.type))]
    let g := if el.type = "gene" then st.2.add_node title else st.2
    (table, g)
  else st

/-- The entries pass: fold `processEntry` over the document's entry
elements in document order. -/
def classifyEntries (entriestype : List String) (entries : List Entry)
    (st : NodeTable × Graph) : NodeTable × Graph :=
  entries.foldl (processEntry entriestype) st

/-- The error a conversion can raise: line 90 of the script looks up
`nodes[e1]` and `nodes[e2]`, and a missing key is a lookup failure on
that relation endpoint. -/
inductive ConvError where
  | unresolvedRelationEndpoint (id : String)
deriving DecidableEq

/-- Lines 79-90 of the script: for each `relation` element, look up both
endpoint ids in the dict (left to right, failing on the first missing
one) and add an edge between the two stored titles. -/
def addRelations (table : NodeTable) : Graph → List Relation →
    Except ConvError Graph
  | g, [] => .ok g
  | g, r :: rs =>
    match dictGet table r.entry1 with
    | none => .error (.unresolvedRelationEndpoint r.entry1)
    | some d1 =>
      match dictGet table r.entry2 with
      | none => .error (.unresolvedRelationEndpoint r.entry2)
      | some d2 => addRelations table (g.add_edge d1.2.1 d2.2.1) rs

/-- The tuple returned on line 92: `(tree, graph, nodes, genes,
reactions)`. -/
structure ConvResult where
  tree : Document
  graph : Graph
  table : NodeTable
  genes : List String
  reactions : List (String × String)
deriving DecidableEq

/-- `KGML2Graph(xmlfile, filetype='organism')`, lines 17-92. The omitted
argument of the Python call is modelled as `none`, resolved to the
declared default `"organism"`. `genes` and `reactions` are initialized
empty (lines 42-43) and never touched. -/
def KGML2Graph (doc : Document) (filetype : Option String) :
    Except ConvError ConvResult :=
  let ft := filetype.getD "organism"
  let entriestype := entriesTypeFor ft
  let genes : List String := []
  let reactions : List (String × String) := []
  let st := classifyEntries entriestype doc.entries ([], ⟨doc.title, [], []⟩)
  match addRelations st.1 st.2 doc.relations with
  | .ok g => .ok ⟨doc, g, st.1, genes, reactions⟩
  | .error e => .error e

/-- The labels the entries pass registers as explicit graph nodes: the
normalized titles of accepted entries of type `gene`. -/
def geneLabels (entriestype : List String) (entries : List Entry) :
    List String :=
  (entries.filter (fun e =>
    decide (e.type ∈ entriestype) && decide (e.type = "gene"))).map
    (fun e => normalizeTitle e.graphicsName)

/-- The descriptor table a conversion of `doc` under `filetype` builds. -/
def tableOf (doc : Document) (filetype : Option String) : NodeTable :=
  (classifyEntries (entriesTypeFor (filetype.getD "organism")) doc.entries
    ([], ⟨doc.title, [], []⟩)).1

/-- A document with no entries and no relations. -/
def emptyDoc : Document := ⟨"T", [], []⟩

/-- A generic-flavor document: one ortholog entry and one self-relation. -/
def orthologDoc : Document :=
  ⟨"P", [⟨"5", "ortholog", "ko:K00001", "K00001"⟩], [⟨"5", "5"⟩]⟩

/-- The scenario document of the spec: title `Pathway X`, two gene
entries `ALG8` and `ALG9`, one relation between them. -/
def scenarioDoc : Document :=
  ⟨"Pathway X",
   [⟨"1", "gene", "A", "ALG8"⟩, ⟨"2", "gene", "B", "ALG9"⟩],
   [⟨"1", "2"⟩]⟩

/-- A document in which two gene entries share the id `1`. -/
def dupDoc : Document :=
  ⟨"D", [⟨"1", "gene", "A", "T1"⟩, ⟨"1", "gene", "B", "T2"⟩], []⟩

/-- A document whose relation references the unregistered id `9`. -/
def badDoc : Document := ⟨"B", [⟨"1", "gene", "A", "G1"⟩], [⟨"1", "9"⟩]⟩

/-- A document with two relations between the same pair of entries. -/
def dupRelDoc : Document :=
  ⟨"R", [⟨"1", "gene", "A", "G1"⟩, ⟨"2", "gene", "B", "G2"⟩],
   [⟨"1", "2"⟩, ⟨"1", "2"⟩]⟩

/-- `sameEdge` with the reference pair first, for counting edges equal
to a given undirected pair. -/
def sameEdgeWith (p e : String × String) : Bool := sameEdge e p

/-- Whether a conversion outcome is the unresolved-relation-endpoint
error. -/
def isUnresolvedError : Except ConvError ConvResult → Bool
  | .error (.unresolvedRelationEndpoint _) => true
  | _ => false

/-- The conversion result for `scenarioDoc` in organism mode. -/
def scenarioRes : ConvResult :=
  ⟨scenarioDoc, ⟨"Pathway X", ["ALG8", "ALG9"], [("ALG8", "ALG9")]⟩,
   [("1", ("A", "ALG8", "gene")), ("2", ("B", "ALG9", "gene"))], [], []⟩

/-- The conversion result for `dupRelDoc` in organism mode. -/
def dupRelRes : ConvResult :=
  ⟨dupRelDoc, ⟨"R", ["G1", "G2"], [("G1", "G2")]⟩,
   [("1", ("A", "G1", "gene")), ("2", ("B", "G2", "gene"))], [], []⟩

/-!
## Helper lemmas
-/

lemma endsDots_iff (title : String) :
    title.data.drop (title.data.length - 3) = ['.', '.', '.'] ↔
      ∃ s : String, title = s ++ "..." := by
  constructor
  · intro h
    refine ⟨String.mk (title.data.take (title.data.length - 3)), ?_⟩
    cases title with
    | mk l =>
      show String.mk l = String.mk (l.take (l.length - 3) ++ ('.' :: '.' :: '.' :: []))
      rw [← h]
      simp [List.take_append_drop]
  · rintro ⟨s, rfl⟩
    have hd : (s ++ ("..." : String)).data = s.data ++ ['.', '.', '.'] := rfl
    rw [hd]
    simp [List.drop_left]

lemma normalize_of_not_ends (title : String)
    (h : ¬ title.data.drop (title.data.length - 3) = ['.', '.', '.']) :
    normalizeTitle title = title := by
  unfold normalizeTitle
  rw [if_neg h]

lemma normalize_of_no_suffix (title : String)
    (h : ∀ s : String, title ≠ s ++ "...") :
    normalizeTitle title = title := by
  apply normalize_of_not_ends
  intro hc
  obtain ⟨s, hs⟩ := (endsDots_iff title).mp hc
  exact h s hs

lemma no_suffix_of_decide (t : String)
    (h : (t.data.drop (t.data.length - 3) == ['.', '.', '.']) = false) :
    ∀ s : String, t ≠ s ++ "..." := by
  intro s hs
  have hc := (endsDots_iff t).mpr ⟨s, hs⟩
  rw [hc] at h
  simp at h

lemma dictGet_append_single (m : NodeTable) (k k' : String) (v : Descriptor) :
    dictGet (m ++ [(k, v)]) k' = if k' = k then some v else dictGet m k' := by
  unfold dictGet
  rw [List.reverse_append]
  show ((((k, v) :: m.reverse).find? fun p => p.1 == k').map fun p => p.2) = _
  by_cases h : k' = k
  · subst h
    simp [List.find?]
  · rw [List.find?]
    have hb : ((k, v).1 == k') = false := by
      simp only [beq_eq_false_iff_ne, ne_eq]
      exact fun hk => h hk.symm
    rw [hb, if_neg h]

lemma classifyEntries_cons (t : List String) (e : Entry) (es : List Entry)
    (st : NodeTable × Graph) :
    classifyEntries t (e :: es) st = classifyEntries t es (processEntry t st e) := rfl

lemma classifyEntries_append (t : List String) (xs ys : List Entry)
    (st : NodeTable × Graph) :
    classifyEntries t (xs ++ ys) st = classifyEntries t ys (classifyEntries t xs st) :=
  List.foldl_append _ _ _ _

lemma processEntry_accepted (t : List String) (st : NodeTable × Graph) (e : Entry)
    (ha : e.type ∈ t) :
    processEntry t st e =
      (st.1 ++ [(e.id, (e.name, normalizeTitle e.graphicsName, e.type))],
       if e.type = "gene" then st.2.add_node (normalizeTitle e.graphicsName) else st.2) := by
  unfold processEntry
  rw [if_pos ha]

lemma processEntry_skipped (t : List String) (st : NodeTable × Graph) (e : Entry)
    (ha : e.type ∉ t) : processEntry t st e = st := by
  unfold processEntry
  rw [if_neg ha]

lemma dictGet_classify_skip (t : List String) (es : List Entry)
    (st : NodeTable × Graph) (k : String)
    (h : ∀ e ∈ es, e.id = k → e.type ∉ t) :
    dictGet (classifyEntries t es st).1 k = dictGet st.1 k := by
  induction es generalizing st with
  | nil => rfl
  | cons e es ih =>
    rw [classifyEntries_cons, ih _ (fun e' he' => h e' (List.mem_cons_of_mem _ he'))]
    by_cases ha : e.type ∈ t
    · rw [processEntry_accepted t st e ha]
      have hne : ¬ k = e.id := fun hk => h e (List.mem_cons_self e es) hk.symm ha
      show dictGet (st.1 ++ [(e.id, _)]) k = dictGet st.1 k
      rw [dictGet_append_single, if_neg hne]
    · rw [processEntry_skipped t st e ha]

lemma dictGet_classify_some (t : List String) (es : List Entry)
    (st : NodeTable × Graph) (k : String) (d : Descriptor)
    (h : dictGet (classifyEntries t es st).1 k = some d) :
    (∃ e ∈ es, e.id = k ∧ e.type ∈ t ∧
      d = (e.name, normalizeTitle e.graphicsName, e.type)) ∨
    dictGet st.1 k = some d := by
  induction es generalizing st with
  | nil => exact Or.inr h
  | cons e es ih =>
    rw [classifyEntries_cons] at h
    rcases ih _ h with ⟨e', he', rest⟩ | hbase
    · exact Or.inl ⟨e', List.mem_cons_of_mem _ he', rest⟩
    · by_cases ha : e.type ∈ t
      · rw [processEntry_accepted t st e ha] at hbase
        rw [show (st.1 ++ [(e.id, (e.name, normalizeTitle e.graphicsName, e.type))],
              if e.type = "gene" then st.2.add_node (normalizeTitle e.graphicsName)
              else st.2).1 = st.1 ++ [(e.id, (e.name, normalizeTitle e.graphicsName,
              e.type))] from rfl] at hbase
        rw [dictGet_append_single] at hbase
        by_cases hk : k = e.id
        · rw [if_pos hk] at hbase
          exact Or.inl ⟨e, List.mem_cons_self e es, hk.symm, ha,
            (Option.some.inj hbase).symm⟩
        · rw [if_neg hk] at hbase
          exact Or.inr hbase
      · rw [processEntry_skipped t st e ha] at hbase
        exact Or.inr hbase

lemma dictGet_classify_mono (t : List String) (es : List Entry)
    (st : NodeTable × Graph) (k : String)
    (h : (dictGet st.1 k).isSome = true) :
    (dictGet (classifyEntries t es st).1 k).isSome = true := by
  induction es generalizing st with
  | nil => exact h
  | cons e es ih =>
    rw [classifyEntries_cons]
    apply ih
    by_cases ha : e.type ∈ t
    · rw [processEntry_accepted t st e ha]
      show (dictGet (st.1 ++ [(e.id, _)]) k).isSome = true
      rw [dictGet_append_single]
      by_cases hk : k = e.id
      · rw [if_pos hk]; rfl
      · rw [if_neg hk]; exact h
    · rw [processEntry_skipped t st e ha]; exact h

lemma dictGet_classify_isSome (t : List String) (es : List Entry)
    (st : NodeTable × Graph) (e : Entry) (he : e ∈ es) (ha : e.type ∈ t) :
    (dictGet (classifyEntries t es st).1 e.id).isSome = true := by
  induction es generalizing st with
  | nil => cases he
  | cons e0 es ih =>
    rw [classifyEntries_cons]
    rcases List.mem_cons.mp he with rfl | he'
    · apply dictGet_classify_mono
      rw [processEntry_accepted t st e ha]
      show (dictGet (st.1 ++ [(e.id, _)]) e.id).isSome = true
      rw [dictGet_append_single, if_pos rfl]
      rfl
    · exact ih _ he'

/-!
## Claim theorems
-/

/-- C4: label normalization strips exactly the trailing three-character
marker `...` when the title ends in it, returns the title unchanged
otherwise, and normalizes `ALG2...` to `ALG2`. -/
theorem normalizeTitle_spec (title : String) :
    (∀ s : String, title = s ++ "..." → normalizeTitle title = s) ∧
    ((∀ s : String, title ≠ s ++ "...") → normalizeTitle title = title) ∧
    normalizeTitle "ALG2..." = "ALG2" := by
  refine ⟨?_, normalize_of_no_suffix title, by decide⟩
  rintro s rfl
  unfold normalizeTitle
  have hd : (s ++ ("..." : String)).data = s.data ++ ['.', '.', '.'] := rfl
  rw [if_pos]
  · cases s with
    | mk l =>
      show String.mk ((String.mk l ++ ("..." : String)).data.take _) = String.mk l
      rw [hd]
      simp [List.take_left]
  · rw [hd]
    simp [List.drop_left]

theorem normalizeTitle_spec_witness :
    normalizeTitle "ALG2..." = "ALG2" ∧ normalizeTitle "XYZ" = "XYZ" :=
  ⟨(normalizeTitle_spec "ALG2...").1 "ALG2" (by decide),
   (normalizeTitle_spec "XYZ").2.1 (no_suffix_of_decide "XYZ" (by decide))⟩

/-- C7: label normalization is idempotent on normalized outputs: when
the normalized label does not end in `...`, normalizing again returns
it unchanged. -/
theorem normalizeTitle_idempotent (title : String)
    (h : ∀ s : String, normalizeTitle title ≠ s ++ "...") :
    normalizeTitle (normalizeTitle title) = normalizeTitle title :=
  normalize_of_no_suffix (normalizeTitle title) h

theorem normalizeTitle_idempotent_witness :
    normalizeTitle (normalizeTitle "ALG2...") = normalizeTitle "ALG2..." :=
  normalizeTitle_idempotent "ALG2..." (by
    have he : normalizeTitle "ALG2..." = "ALG2" := by decide
    rw [he]
    exact no_suffix_of_decide "ALG2" (by decide))

/-- C10: calling the conversion with the flavor selector omitted is
identical to calling it with the `organism` selector. -/
theorem default_flavor_organism (doc : Document) :
    KGML2Graph doc none = KGML2Graph doc (some "organism") := rfl

/-- C9: on every successful conversion the reserved outputs `genes` and
`reactions` are empty. -/
theorem reserved_outputs_empty (doc : Document) (filetype : Option String)
    (res : ConvResult) (h : KGML2Graph doc filetype = .ok res) :
    res.genes = [] ∧ res.reactions = [] := by
  simp only [KGML2Graph] at h
  split at h
  · cases h; exact ⟨rfl, rfl⟩
  · cases h

theorem reserved_outputs_empty_witness :
    (⟨emptyDoc, ⟨"T", [], []⟩, [], [], []⟩ : ConvResult).genes = [] ∧
    (⟨emptyDoc, ⟨"T", [], []⟩, [], [], []⟩ : ConvResult).reactions = [] :=
  reserved_outputs_empty emptyDoc none _ rfl

/-- C1 counterexample: the flavor value `banana` is outside the
recognized set, yet `KGML2Graph` does not abort with a configuration
error: it succeeds, behaving exactly like the generic flavor. -/
theorem unrecognized_flavor_counterexample :
    (KGML2Graph orthologDoc (some "banana")).isOk = true ∧
    KGML2Graph orthologDoc (some "banana") =
      KGML2Graph orthologDoc (some "generic") := ⟨rfl, rfl⟩

/-- C1 amended: every flavor value outside `{organism, o}` is treated
as the generic/ortholog flavor; no configuration error is raised. -/
theorem unrecognized_flavor_generic (doc : Document) (ft : String)
    (h1 : ft ≠ "organism") (h2 : ft ≠ "o") :
    KGML2Graph doc (some ft) = KGML2Graph doc (some "generic") := by
  have hft : entriesTypeFor ft = entriesTypeFor "generic" := by
    unfold entriesTypeFor
    rw [if_neg (by simp [h1, h2]), if_neg (by decide)]
  unfold KGML2Graph
  simp only [Option.getD_some]
  rw [hft]

theorem unrecognized_flavor_generic_witness :
    KGML2Graph orthologDoc (some "banana") =
      KGML2Graph orthologDoc (some "generic") :=
  unrecognized_flavor_generic orthologDoc "banana" (by decide) (by decide)

/-- C5: the descriptor table accepts exactly the kinds
`{gene, compound, map}` in organism mode and `{ortholog, map, compound}`
in generic/ortholog mode: every stored descriptor comes from an entry
whose kind is in the active closed list, and every entry with an
accepted kind contributes a descriptor. -/
theorem accepted_kinds_exact (doc : Document) (filetype : Option String) :
    (∀ ft : String, ft = "organism" ∨ ft = "o" →
      entriesTypeFor ft = ["gene", "compound", "map"]) ∧
    (∀ ft : String, ft ∈ (["ko", "k", "generic", "general"] : List String) →
      entriesTypeFor ft = ["ortholog", "map", "compound"]) ∧
    (∀ k d, dictGet (tableOf doc filetype) k = some d →
      ∃ e ∈ doc.entries, e.id = k ∧
        e.type ∈ entriesTypeFor (filetype.getD "organism") ∧
        d = (e.name, normalizeTitle e.graphicsName, e.type)) ∧
    (∀ e ∈ doc.entries, e.type ∈ entriesTypeFor (filetype.getD "organism") →
      (dictGet (tableOf doc filetype) e.id).isSome = true) := by
  refine ⟨?_, ?_, ?_, ?_⟩
  · rintro ft (rfl | rfl) <;> rfl
  · intro ft hft
    fin_cases hft <;> rfl
  · intro k d h
    unfold tableOf at h
    rcases dictGet_classify_some _ _ _ _ _ h with hfound | hbase
    · exact hfound
    · cases hbase
  · intro e he ha
    unfold tableOf
    exact dictGet_classify_isSome _ _ _ e he ha

theorem accepted_kinds_exact_witness :
    entriesTypeFor "organism" = ["gene", "compound", "map"] ∧
    (dictGet (tableOf scenarioDoc none) "1").isSome = true :=
  ⟨(accepted_kinds_exact scenarioDoc none).1 "organism" (Or.inl rfl),
   (accepted_kinds_exact scenarioDoc none).2.2.2 ⟨"1", "gene", "A", "ALG8"⟩
     (by decide) (by decide)⟩

/-- C8: when an id reappears, the descriptor table silently keeps the
data of the last accepted entry with that id, in document order. -/
theorem duplicate_id_last_wins (doc : Document) (filetype : Option String)
    (l1 : List Entry) (e : Entry) (l2 : List Entry)
    (hsplit : doc.entries = l1 ++ e :: l2)
    (hacc : e.type ∈ entriesTypeFor (filetype.getD "organism"))
    (hlast : ∀ e' ∈ l2, e'.id = e.id →
      e'.type ∉ entriesTypeFor (filetype.getD "organism")) :
    dictGet (tableOf doc filetype) e.id =
      some (e.name, normalizeTitle e.graphicsName, e.type) := by
  unfold tableOf
  rw [hsplit]
  rw [show l1 ++ e :: l2 = (l1 ++ [e]) ++ l2 by simp]
  rw [classifyEntries_append]
  rw [dictGet_classify_skip _ _ _ _ hlast]
  rw [classifyEntries_append]
  show dictGet (processEntry _ _ e).1 e.id = _
  rw [processEntry_accepted _ _ e hacc]
  show dictGet (_ ++ [(e.id, _)]) e.id = _
  rw [dictGet_append_single, if_pos rfl]

theorem duplicate_id_last_wins_witness :
    dictGet (tableOf dupDoc none) "1" = some ("B", normalizeTitle "T2", "gene") :=
  duplicate_id_last_wins dupDoc none [⟨"1", "gene", "A", "T1"⟩]
    ⟨"1", "gene", "B", "T2"⟩ [] rfl (by decide) (by simp)

lemma add_node_edges (g : Graph) (v : String) : (g.add_node v).edges = g.edges := by
  unfold Graph.add_node
  split <;> rfl

lemma mem_add_node (g : Graph) (v a : String) :
    a ∈ (g.add_node v).nodes ↔ a ∈ g.nodes ∨ a = v := by
  unfold Graph.add_node
  split
  · next h => exact ⟨Or.inl, fun hc => hc.elim id (fun he => he ▸ h)⟩
  · simp [List.mem_append]

lemma sameEdge_iff (e f : String × String) :
    sameEdge e f = true ↔ (e.1 = f.1 ∧ e.2 = f.2) ∨ (e.1 = f.2 ∧ e.2 = f.1) := by
  simp [sameEdge]

lemma add_edge_cases (g : Graph) (u v : String) :
    ((g.add_edge u v).nodes = ((g.add_node u).add_node v).nodes ∧
      (g.add_edge u v).edges = g.edges ∧
      ∃ e ∈ g.edges, sameEdge e (u, v) = true) ∨
    ((g.add_edge u v).nodes = ((g.add_node u).add_node v).nodes ∧
      (g.add_edge u v).edges = g.edges ++ [(u, v)] ∧
      ∀ e ∈ g.edges, sameEdge e (u, v) = false) := by
  unfold Graph.add_edge
  by_cases h : (((g.add_node u).add_node v).edges.any fun e => sameEdge e (u, v)) = true
  · left
    rw [if_pos h]
    rw [add_node_edges, add_node_edges] at h
    exact ⟨rfl, by rw [add_node_edges, add_node_edges], List.any_eq_true.mp h⟩
  · right
    rw [if_neg h]
    rw [add_node_edges, add_node_edges] at h
    refine ⟨rfl, by rw [add_node_edges, add_node_edges], ?_⟩
    intro e he
    have := List.any_eq_false.mp (Bool.not_eq_true _ |>.mp h) e he
    exact Bool.not_eq_true _ |>.mp this

lemma mem_add_edge_nodes (g : Graph) (u v a : String) :
    a ∈ (g.add_edge u v).nodes ↔ a ∈ g.nodes ∨ a = u ∨ a = v := by
  rcases add_edge_cases g u v with ⟨hn, _, _⟩ | ⟨hn, _, _⟩ <;>
    rw [hn, mem_add_node, mem_add_node] <;> tauto

lemma add_edge_endpoint (g : Graph) (u v a : String) :
    (∃ e ∈ (g.add_edge u v).edges, e.1 = a ∨ e.2 = a) ↔
    (∃ e ∈ g.edges, e.1 = a ∨ e.2 = a) ∨ a = u ∨ a = v := by
  rcases add_edge_cases g u v with ⟨_, he, e0, he0, hs⟩ | ⟨_, he, _⟩
  · rw [he]
    constructor
    · exact Or.inl
    · rintro (h | rfl | rfl)
      · exact h
      · rcases (sameEdge_iff e0 (a, v)).mp hs with ⟨h1, _⟩ | ⟨h1, h2⟩
        · exact ⟨e0, he0, Or.inl h1⟩
        · exact ⟨e0, he0, Or.inr h2⟩
      · rcases (sameEdge_iff e0 (u, a)).mp hs with ⟨_, h2⟩ | ⟨h1, _⟩
        · exact ⟨e0, he0, Or.inr h2⟩
        · exact ⟨e0, he0, Or.inl h1⟩
  · rw [he]
    simp only [List.mem_append, List.mem_singleton]
    constructor
    · rintro ⟨e, he' | rfl, hend⟩
      · exact Or.inl ⟨e, he', hend⟩
      · rcases hend with h | h
        · exact Or.inr (Or.inl h.symm)
        · exact Or.inr (Or.inr h.symm)
    · rintro (⟨e, he', hend⟩ | rfl | rfl)
      · exact ⟨e, Or.inl he', hend⟩
      · exact ⟨(a, v), Or.inr rfl, Or.inl rfl⟩
      · exact ⟨(u, a), Or.inr rfl, Or.inr rfl⟩

lemma geneLabels_cons (t : List String) (e : Entry) (es : List Entry) :
    geneLabels t (e :: es) =
      if e.type ∈ t ∧ e.type = "gene" then
        normalizeTitle e.graphicsName :: geneLabels t es
      else geneLabels t es := by
  by_cases h2 : e.type = "gene"
  · by_cases h1 : "gene" ∈ t <;> simp [geneLabels, List.filter_cons, h2, h1]
  · simp [geneLabels, List.filter_cons, h2]

lemma classify_edges (t : List String) (es : List Entry) (st : NodeTable × Graph) :
    (classifyEntries t es st).2.edges = st.2.edges := by
  induction es generalizing st with
  | nil => rfl
  | cons e es ih =>
    rw [classifyEntries_cons, ih]
    by_cases ha : e.type ∈ t
    · rw [processEntry_accepted t st e ha]
      dsimp only
      by_cases hg : e.type = "gene"
      · rw [if_pos hg]
        exact add_node_edges _ _
      · rw [if_neg hg]
    · rw [processEntry_skipped t st e ha]

lemma classify_nodes_mem (t : List String) (es : List Entry)
    (st : NodeTable × Graph) (a : String) :
    a ∈ (classifyEntries t es st).2.nodes ↔
      a ∈ st.2.nodes ∨ a ∈ geneLabels t es := by
  induction es generalizing st with
  | nil =>
    show a ∈ st.2.nodes ↔ a ∈ st.2.nodes ∨ a ∈ ([] : List String)
    simp
  | cons e es ih =>
    rw [classifyEntries_cons, ih, geneLabels_cons]
    by_cases ha : e.type ∈ t
    · rw [processEntry_accepted t st e ha]
      dsimp only
      by_cases hg : e.type = "gene"
      · rw [if_pos hg, if_pos ⟨ha, hg⟩, mem_add_node]
        simp only [List.mem_cons]
        tauto
    
      · rw [if_neg hg, if_neg (fun hc => hg hc.2)]
    · rw [processEntry_skipped t st e ha, if_neg (fun hc => ha hc.1)]

lemma addRelations_cons_none1 (table : NodeTable) (g : Graph) (r : Relation)
    (rs : List Relation) (h1 : dictGet table r.entry1 = none) :
    addRelations table g (r :: rs) =
      .error (.unresolvedRelationEndpoint r.entry1) := by
  unfold addRelations
  rw [h1]

lemma addRelations_cons_none2 (table : NodeTable) (g : Graph) (r : Relation)
    (rs : List Relation) (d1 : Descriptor)
    (h1 : dictGet table r.entry1 = some d1) (h2 : dictGet table r.entry2 = none) :
    addRelations table g (r :: rs) =
      .error (.unresolvedRelationEndpoint r.entry2) := by
  unfold addRelations
  rw [h1, h2]

lemma addRelations_cons_some (table : NodeTable) (g : Graph) (r : Relation)
    (rs : List Relation) (d1 d2 : Descriptor)
    (h1 : dictGet table r.entry1 = some d1) (h2 : dictGet table r.entry2 = some d2) :
    addRelations table g (r :: rs) =
      addRelations table (g.add_edge d1.2.1 d2.2.1) rs := by
  conv_lhs => unfold addRelations
  rw [h1, h2]

lemma addRelations_ok_ind (table : NodeTable) (motive : Graph → Prop)
    (hstep : ∀ g u v, motive g → motive (g.add_edge u v)) :
    ∀ (rs : List Relation) (g g' : Graph),
      addRelations table g rs = .ok g' → motive g → motive g' := by
  intro rs
  induction rs with
  | nil =>
    intro g g' h hm
    cases h
    exact hm
  | cons r rs ih =>
    intro g g' h hm
    cases hd1 : dictGet table r.entry1 with
    | none => rw [addRelations_cons_none1 table g r rs hd1] at h; cases h
    | some d1 =>
      cases hd2 : dictGet table r.entry2 with
      | none => rw [addRelations_cons_none2 table g r rs d1 hd1 hd2] at h; cases h
      | some d2 =>
        rw [addRelations_cons_some table g r rs d1 d2 hd1 hd2] at h
        exact ih _ _ h (hstep _ _ _ hm)

lemma add_edge_length (g : Graph) (u v : String) :
    (g.add_edge u v).edges.length ≤ g.edges.length + 1 := by
  rcases add_edge_cases g u v with ⟨_, he, _⟩ | ⟨_, he, _⟩ <;> rw [he] <;> simp

lemma addRelations_ok_length (table : NodeTable) :
    ∀ (rs : List Relation) (g g' : Graph), addRelations table g rs = .ok g' →
      g'.edges.length ≤ g.edges.length + rs.length := by
  intro rs
  induction rs with
  | nil =>
    intro g g' h
    cases h
    simp
  | cons r rs ih =>
    intro g g' h
    cases hd1 : dictGet table r.entry1 with
    | none => rw [addRelations_cons_none1 table g r rs hd1] at h; cases h
    | some d1 =>
      cases hd2 : dictGet table r.entry2 with
      | none => rw [addRelations_cons_none2 table g r rs d1 hd1 hd2] at h; cases h
      | some d2 =>
        rw [addRelations_cons_some table g r rs d1 d2 hd1 hd2] at h
        have hrec := ih _ _ h
        have hlen := add_edge_length g d1.2.1 d2.2.1
        simp only [List.length_cons]
        omega

lemma addRelations_ok_resolves (table : NodeTable) :
    ∀ (rs : List Relation) (g g' : Graph), addRelations table g rs = .ok g' →
      ∀ r ∈ rs, (dictGet table r.entry1).isSome = true ∧
        (dictGet table r.entry2).isSome = true := by
  intro rs
  induction rs with
  | nil =>
    intro g g' _ r hr
    cases hr
  | cons r0 rs ih =>
    intro g g' h r hr
    cases hd1 : dictGet table r0.entry1 with
    | none => rw [addRelations_cons_none1 table g r0 rs hd1] at h; cases h
    | some d1 =>
      cases hd2 : dictGet table r0.entry2 with
      | none => rw [addRelations_cons_none2 table g r0 rs d1 hd1 hd2] at h; cases h
      | some d2 =>
        rw [addRelations_cons_some table g r0 rs d1 d2 hd1 hd2] at h
        rcases List.mem_cons.mp hr with rfl | hr'
        · exact ⟨by rw [hd1]; rfl, by rw [hd2]; rfl⟩
        · exact ih _ _ h r hr'

lemma add_edge_edges_subset (g : Graph) (u v : String) :
    ∀ e ∈ g.edges, e ∈ (g.add_edge u v).edges := by
  rcases add_edge_cases g u v with ⟨_, he, _⟩ | ⟨_, he, _⟩ <;> rw [he] <;>
    intro e hmem <;> simp [hmem]

lemma add_edge_exists_same (g : Graph) (u v : String) :
    ∃ e ∈ (g.add_edge u v).edges, sameEdge e (u, v) = true := by
  rcases add_edge_cases g u v with ⟨_, he, e0, he0, hs⟩ | ⟨_, he, _⟩
  · exact ⟨e0, he ▸ he0, hs⟩
  · refine ⟨(u, v), ?_, ?_⟩
    · rw [he]; simp
    · simp [sameEdge]

lemma addRelations_edges_mono (table : NodeTable) (rs : List Relation)
    (g g' : Graph) (h : addRelations table g rs = .ok g') :
    ∀ e ∈ g.edges, e ∈ g'.edges :=
  addRelations_ok_ind table (fun g1 => ∀ e ∈ g.edges, e ∈ g1.edges)
    (fun g1 u v hm e he => add_edge_edges_subset g1 u v e (hm e he))
    rs g g' h (fun _ he => he)

lemma addRelations_ok_edge (table : NodeTable) :
    ∀ (rs : List Relation) (g g' : Graph), addRelations table g rs = .ok g' →
      ∀ r ∈ rs, ∀ d1 d2 : Descriptor,
        dictGet table r.entry1 = some d1 → dictGet table r.entry2 = some d2 →
        ∃ e ∈ g'.edges, sameEdge e (d1.2.1, d2.2.1) = true := by
  intro rs
  induction rs with
  | nil =>
    intro g g' _ r hr
    cases hr
  | cons r0 rs ih =>
    intro g g' h r hr d1 d2 h1 h2
    cases hd1 : dictGet table r0.entry1 with
    | none => rw [addRelations_cons_none1 table g r0 rs hd1] at h; cases h
    | some q1 =>
      cases hd2 : dictGet table r0.entry2 with
      | none => rw [addRelations_cons_none2 table g r0 rs q1 hd1 hd2] at h; cases h
      | some q2 =>
        rw [addRelations_cons_some table g r0 rs q1 q2 hd1 hd2] at h
        rcases List.mem_cons.mp hr with rfl | hr'
        · have e1 : q1 = d1 := Option.some.inj (hd1.symm.trans h1)
          have e2 : q2 = d2 := Option.some.inj (hd2.symm.trans h2)
          rw [e1, e2] at h
          obtain ⟨e, he, hs⟩ := add_edge_exists_same g d1.2.1 d2.2.1
          exact ⟨e, addRelations_edges_mono table rs _ _ h e he, hs⟩
        · exact ih _ _ h r hr' d1 d2 h1 h2

lemma add_edge_pairwise (g : Graph) (u v : String)
    (hpw : g.edges.Pairwise fun e f => sameEdge e f = false) :
    (g.add_edge u v).edges.Pairwise fun e f => sameEdge e f = false := by
  rcases add_edge_cases g u v with ⟨_, he, _⟩ | ⟨_, he, hall⟩
  · rw [he]; exact hpw
  · rw [he, List.pairwise_append]
    refine ⟨hpw, List.pairwise_singleton _ _, ?_⟩
    intro a ha b hb
    rw [List.mem_singleton] at hb
    subst hb
    exact hall a ha

lemma sameEdge_trans (e f p : String × String)
    (h1 : sameEdge e p = true) (h2 : sameEdge f p = true) :
    sameEdge e f = true := by
  rw [sameEdge_iff] at h1 h2 ⊢
  rcases h1 with ⟨ha, hb⟩ | ⟨ha, hb⟩ <;> rcases h2 with ⟨hc, hd⟩ | ⟨hc, hd⟩ <;>
    simp [ha, hb, hc, hd]

lemma countP_sameEdge_eq_one (l : List (String × String)) (p : String × String)
    (hpw : l.Pairwise fun e f => sameEdge e f = false)
    (hex : ∃ e ∈ l, sameEdge e p = true) :
    l.countP (sameEdgeWith p) = 1 := by
  induction l with
  | nil => simp at hex
  | cons e l ih =>
    rw [List.countP_cons]
    rcases List.pairwise_cons.mp hpw with ⟨hhead, htail⟩
    by_cases hc : sameEdge e p = true
    · have hz : l.countP (sameEdgeWith p) = 0 := by
        rw [List.countP_eq_zero]
        intro f hf hfp
        have htr := sameEdge_trans e f p hc hfp
        rw [hhead f hf] at htr
        cases htr
      rw [hz]
      simp [sameEdgeWith, hc]
    · rcases hex with ⟨e', he', hp'⟩
      rcases List.mem_cons.mp he' with rfl | he''
      · exact absurd hp' hc
      · rw [ih htail ⟨e', he'', hp'⟩]
        simp [sameEdgeWith, hc]

lemma KGML2Graph_ok_rel (doc : Document) (filetype : Option String)
    (res : ConvResult) (h : KGML2Graph doc filetype = .ok res) :
    addRelations (tableOf doc filetype)
      (classifyEntries (entriesTypeFor (filetype.getD "organism")) doc.entries
        ([], ⟨doc.title, [], []⟩)).2 doc.relations = .ok res.graph := by
  simp only [KGML2Graph] at h
  split at h
  · next g heq =>
      cases h
      exact heq
  · next e heq => cases h

/-- C2 -/
theorem graph_nodes_exact (doc : Document) (filetype : Option String)
    (res : ConvResult) (h : KGML2Graph doc filetype = .ok res) (a : String) :
    a ∈ res.graph.nodes ↔
      a ∈ geneLabels (entriesTypeFor (filetype.getD "organism")) doc.entries ∨
      ∃ e ∈ res.graph.edges, e.1 = a ∨ e.2 = a := by
  have hrel := KGML2Graph_ok_rel doc filetype res h
  refine addRelations_ok_ind (tableOf doc filetype)
    (fun g => ∀ b, b ∈ g.nodes ↔
      b ∈ geneLabels (entriesTypeFor (filetype.getD "organism")) doc.entries ∨
      ∃ e ∈ g.edges, e.1 = b ∨ e.2 = b)
    ?_ doc.relations _ _ hrel ?_ a
  · intro g u v hm b
    rw [mem_add_edge_nodes, add_edge_endpoint, hm b]
    exact or_assoc
  · intro b
    rw [classify_nodes_mem, classify_edges]
    show b ∈ ([] : List String) ∨ _ ↔ _ ∨ ∃ e ∈ ([] : List (String × String)), _
    simp

theorem graph_nodes_exact_witness : "ALG8" ∈ scenarioRes.graph.nodes :=
  (graph_nodes_exact scenarioDoc none scenarioRes rfl "ALG8").mpr
    (Or.inl (by decide))

/-- C3 -/
theorem unresolved_endpoint_fails (doc : Document) (filetype : Option String)
    (h : ∃ r ∈ doc.relations,
      dictGet (tableOf doc filetype) r.entry1 = none ∨
      dictGet (tableOf doc filetype) r.entry2 = none) :
    isUnresolvedError (KGML2Graph doc filetype) = true := by
  obtain ⟨r, hr, hnone⟩ := h
  cases hres : KGML2Graph doc filetype with
  | error e =>
    cases e
    rfl
  | ok res =>
    exfalso
    have hrel := KGML2Graph_ok_rel doc filetype res hres
    have hsome := addRelations_ok_resolves _ _ _ _ hrel r hr
    rcases hnone with hn | hn
    · rw [hn] at hsome
      exact absurd hsome.1 (by simp)
    · rw [hn] at hsome
      exact absurd hsome.2 (by simp)

theorem unresolved_endpoint_fails_witness :
    isUnresolvedError (KGML2Graph badDoc none) = true :=
  unresolved_endpoint_fails badDoc none (by decide)

/-- C6 -/
theorem duplicate_relations_collapse (doc : Document) (filetype : Option String)
    (res : ConvResult) (h : KGML2Graph doc filetype = .ok res) :
    (∀ r ∈ doc.relations, ∀ d1 d2 : Descriptor,
      dictGet (tableOf doc filetype) r.entry1 = some d1 →
      dictGet (tableOf doc filetype) r.entry2 = some d2 →
      res.graph.edges.countP (sameEdgeWith (d1.2.1, d2.2.1)) = 1) ∧
    res.graph.edges.length ≤ doc.relations.length := by
  have hrel := KGML2Graph_ok_rel doc filetype res h
  have hedges0 : (classifyEntries (entriesTypeFor (filetype.getD "organism"))
      doc.entries ([], ⟨doc.title, [], []⟩)).2.edges = [] := classify_edges _ _ _
  have hnil : List.Pairwise (fun e f => sameEdge e f = false)
      ((classifyEntries (entriesTypeFor (filetype.getD "organism")) doc.entries
        ([], ⟨doc.title, [], []⟩)).2.edges) := by
    rw [hedges0]
    exact List.Pairwise.nil
  have hpw : res.graph.edges.Pairwise fun e f => sameEdge e f = false :=
    addRelations_ok_ind (tableOf doc filetype)
      (fun g => g.edges.Pairwise fun e f => sameEdge e f = false)
      (fun g u v hm => add_edge_pairwise g u v hm) doc.relations _ _ hrel hnil
  constructor
  · intro r hr d1 d2 h1 h2
    exact countP_sameEdge_eq_one _ _ hpw
      (addRelations_ok_edge _ _ _ _ hrel r hr d1 d2 h1 h2)
  · have hlen := addRelations_ok_length _ _ _ _ hrel
    rw [hedges0] at hlen
    simpa using hlen

theorem duplicate_relations_collapse_witness :
    dupRelRes.graph.edges.countP (sameEdgeWith ("G1", "G2")) = 1 ∧
    dupRelRes.graph.edges.length ≤ dupRelDoc.relations.length :=
  ⟨(duplicate_relations_collapse dupRelDoc none dupRelRes rfl).1
     ⟨"1", "2"⟩ (by decide) ("A", "G1", "gene") ("B", "G2", "gene")
     (by decide) (by decide),
   (duplicate_relations_collapse dupRelDoc none dupRelRes rfl).2⟩

end KGML
